import Mathlib

/-!
Verification development for the bemenu menu-selection engine.

The repository ships only the public header `src/lib/bemenu.h` (declarations
and doc comments); the library implementation (`menu.c`, `filter.c`,
`item.c`) is not in the tree.  The engine's behaviour is therefore modelled
from the natural-language specification (spec.md) and the header's own doc
comments.  C strings are modelled as `List Char` (a NULL string and the
empty string are identified, following the header's "can be NULL for empty
text" convention), pointers as `Nat` identities, and fallible operations
return `Option`.
-/

namespace Bemenu

/-- Modelled from the spec: an item (`struct bm_item`) is a text record with
an identity (`ptr` stands for the C object pointer, which is what insertion,
removal, selection and highlight compare). User-data is opaque pass-through
and is omitted. -/
structure BmItem where
  ptr : Nat
  text : List Char
deriving DecidableEq, Repr

/-- Filter mode constants (`enum bm_filter_mode` in bemenu.h). -/
inductive BmFilterMode where
  | BM_FILTER_MODE_DMENU
  | BM_FILTER_MODE_DMENU_CASE_INSENSITIVE
  | BM_FILTER_MODE_LAST
deriving DecidableEq, Repr

/-- Run result constants (`enum bm_run_result` in bemenu.h). -/
inductive BmRunResult where
  | BM_RUN_RESULT_RUNNING
  | BM_RUN_RESULT_SELECTED
  | BM_RUN_RESULT_CANCEL
deriving DecidableEq, Repr

/-- Key constants (`enum bm_key` in bemenu.h). -/
inductive BmKey where
  | BM_KEY_NONE
  | BM_KEY_UP
  | BM_KEY_DOWN
  | BM_KEY_LEFT
  | BM_KEY_RIGHT
  | BM_KEY_HOME
  | BM_KEY_END
  | BM_KEY_PAGE_UP
  | BM_KEY_PAGE_DOWN
  | BM_KEY_SHIFT_PAGE_UP
  | BM_KEY_SHIFT_PAGE_DOWN
  | BM_KEY_BACKSPACE
  | BM_KEY_DELETE
  | BM_KEY_LINE_DELETE_LEFT
  | BM_KEY_LINE_DELETE_RIGHT
  | BM_KEY_WORD_DELETE
  | BM_KEY_TAB
  | BM_KEY_SHIFT_TAB
  | BM_KEY_ESCAPE
  | BM_KEY_RETURN
  | BM_KEY_SHIFT_RETURN
  | BM_KEY_CONTROL_RETURN
  | BM_KEY_UNICODE
  | BM_KEY_LAST
deriving DecidableEq, Repr

/-- Identity comparison of items: the C library compares object pointers. -/
def sameItem (a b : BmItem) : Bool := a.ptr == b.ptr

/-- Modelled from the spec: the menu container (`struct bm_menu`).  It owns
the ordered item list, the filtered view, the selection set, the highlighted
index (an index into the *filtered* list), the filter text with its edit
caret, the filter mode, and the two display properties that affect engine
logic (wrap flag, visible-line count).  The `last*` fields are history
(ghost) state recording the inputs from which the filtered view was last
computed: `lastItems` is the item sequence at the last recomputation minus
the items removed from the container since, and `lastFilter`/`lastMode` are
the filter text and mode active at that recomputation.  Display-only
pass-through properties (title, highlight marker, font, colors, bottom,
monitor, grab) have no engine-internal semantics and are omitted. -/
structure BmMenu where
  items : List BmItem
  filtered : List BmItem
  selection : List BmItem
  index : Nat
  filterText : List Char
  cursor : Nat
  filterMode : BmFilterMode
  wrap : Bool
  lines : Nat
  lastItems : List BmItem
  lastFilter : List Char
  lastMode : BmFilterMode
deriving DecidableEq, Repr

/-- Modelled from the spec: `bm_menu_new` creates an empty container
(renderer binding is out of scope of the engine model). Defaults: empty
item list, empty filter text, DMENU mode, no wrap, single-line layout. -/
def bm_menu_new : BmMenu :=
  { items := [], filtered := [], selection := [], index := 0,
    filterText := [], cursor := 0,
    filterMode := BmFilterMode.BM_FILTER_MODE_DMENU,
    wrap := false, lines := 0,
    lastItems := [], lastFilter := [],
    lastMode := BmFilterMode.BM_FILTER_MODE_DMENU }

/-- Does `h` start with `n` (character-exact)? -/
def startsWith : List Char → List Char → Bool
  | [], _ => true
  | _ :: _, [] => false
  | c :: cs, d :: ds => c == d && startsWith cs ds

/-- Modelled from the spec: contiguous-substring test used by the filter
engine. `containsChars n h` holds iff `n` occurs contiguously in `h`;
an empty needle matches everything. -/
def containsChars (n : List Char) : List Char → Bool
  | [] => startsWith n []
  | d :: t => startsWith n (d :: t) || containsChars n t

/-- Case folding for the case-insensitive filter mode. -/
def lowerChars (l : List Char) : List Char := l.map Char.toLower

/-- Modelled from the spec: the per-item filter predicate. DMENU mode is a
case-sensitive contiguous substring test; DMENU_CASE_INSENSITIVE folds case
on both sides first.  Per the header doc, BM_FILTER_MODE_LAST "provides
exactly same functionality as BM_FILTER_MODE_DMENU". -/
def itemMatches (mode : BmFilterMode) (ftext : List Char) (it : BmItem) : Bool :=
  match mode with
  | BmFilterMode.BM_FILTER_MODE_DMENU => containsChars ftext it.text
  | BmFilterMode.BM_FILTER_MODE_DMENU_CASE_INSENSITIVE =>
      containsChars (lowerChars ftext) (lowerChars it.text)
  | BmFilterMode.BM_FILTER_MODE_LAST => containsChars ftext it.text

/-- First index at which `p` holds, if any. -/
def findIndex {α : Type} (p : α → Bool) : List α → Option Nat
  | [] => none
  | a :: l => if p a then some 0 else Option.map (fun n => n + 1) (findIndex p l)

/-- `bm_menu_get_items`: the full item sequence. -/
def bm_menu_get_items (m : BmMenu) : List BmItem := m.items

/-- `bm_menu_get_filtered_items`: the filtered (displayed) item sequence. -/
def bm_menu_get_filtered_items (m : BmMenu) : List BmItem := m.filtered

/-- `bm_menu_get_selected_items`: the selection set, in insertion order. -/
def bm_menu_get_selected_items (m : BmMenu) : List BmItem := m.selection

/-- `bm_menu_get_highlighted_item`: the filtered item at the highlighted
index, NULL (`none`) if the index is not a valid filtered position. -/
def bm_menu_get_highlighted_item (m : BmMenu) : Option BmItem :=
  m.filtered[m.index]?

/-- Modelled from the spec (§4.4 post-filter clamp, reused on removal):
if the previously highlighted item is still present in the list, the
highlight follows it; otherwise it resets to index 0. -/
def followHighlight (prev : Option BmItem) (l : List BmItem) : Nat :=
  match prev with
  | none => 0
  | some it =>
    match findIndex (fun x => sameItem x it) l with
    | some i => i
    | none => 0

/-- Modelled from the spec: `bm_menu_filter` recomputes the filtered list
from scratch from the current item list and filter text/mode, then clamps
the highlight by the §4.4 policy.  The ghost fields record the inputs of
this recomputation. -/
def bm_menu_filter (m : BmMenu) : BmMenu :=
  let newFiltered := m.items.filter (itemMatches m.filterMode m.filterText)
  { m with
      filtered := newFiltered,
      index := followHighlight (bm_menu_get_highlighted_item m) newFiltered,
      lastItems := m.items,
      lastFilter := m.filterText,
      lastMode := m.filterMode }

/-- `bm_item_new`: allocate an item; `ptr` is the fresh object identity and
`text` may be NULL (`none`) for empty text. -/
def bm_item_new (ptr : Nat) (text : Option (List Char)) : BmItem :=
  { ptr := ptr, text := text.getD [] }

/-- `bm_item_get_text`: the item's current text (empty if never set). -/
def bm_item_get_text (it : BmItem) : List Char := it.text

/-- `bm_item_set_text`: replace the item's text (NULL means empty). -/
def bm_item_set_text (it : BmItem) (text : Option (List Char)) : BmItem :=
  { it with text := text.getD [] }

/-- `bm_menu_set_highlighted_index`: fails (`none`) when the index is out of
range of the filtered list. -/
def bm_menu_set_highlighted_index (m : BmMenu) (i : Nat) : Option BmMenu :=
  if i < m.filtered.length then some { m with index := i } else none

/-- `bm_menu_set_highlighted_item`: fails when the item is not present in
the filtered list. -/
def bm_menu_set_highlighted_item (m : BmMenu) (it : BmItem) : Option BmMenu :=
  match findIndex (fun x => sameItem x it) m.filtered with
  | some i => some { m with index := i }
  | none => none

/-- Modelled from the spec: `bm_menu_set_selected_items` replaces the
selection wholesale; items not present in the container are ignored. -/
def bm_menu_set_selected_items (m : BmMenu) (its : List BmItem) : BmMenu :=
  { m with selection := its.filter (fun it => m.items.any (fun x => sameItem x it)) }

/-- `bm_menu_set_filter`: set the filter text (NULL modelled as the empty
list); the edit caret moves to the end of the new text.  Does not re-filter:
the filtered view goes stale until filtering is re-triggered. -/
def bm_menu_set_filter (m : BmMenu) (t : List Char) : BmMenu :=
  { m with filterText := t, cursor := t.length }

/-- `bm_menu_set_filter_mode`. -/
def bm_menu_set_filter_mode (m : BmMenu) (mode : BmFilterMode) : BmMenu :=
  { m with filterMode := mode }

/-- `bm_menu_set_wrap`. -/
def bm_menu_set_wrap (m : BmMenu) (w : Bool) : BmMenu :=
  { m with wrap := w }

/-- `bm_menu_set_lines`: 0 means single-line layout. -/
def bm_menu_set_lines (m : BmMenu) (n : Nat) : BmMenu :=
  { m with lines := n }

/-- Insertion at an index; an out-of-range index clamps to append
(spec §4.3 `add_item`). -/
def insertAt {α : Type} (n : Nat) (a : α) : List α → List α
  | [] => [a]
  | b :: l =>
    match n with
    | 0 => a :: b :: l
    | Nat.succ k => b :: insertAt k a l

/-- Modelled from the spec: `bm_menu_add_item_at` fails if the item is
already present (by identity); otherwise inserts at the index, clamping to
append.  The filtered view is untouched (stale until re-filter). -/
def bm_menu_add_item_at (m : BmMenu) (it : BmItem) (i : Nat) : Option BmMenu :=
  if m.items.any (fun x => sameItem x it) then none
  else some { m with items := insertAt i it m.items }

/-- `bm_menu_add_item`: append. -/
def bm_menu_add_item (m : BmMenu) (it : BmItem) : Option BmMenu :=
  bm_menu_add_item_at m it m.items.length

/-- Modelled from the spec: removal of the item with identity `p` from the
container.  It is removed from the item list and from the selection set;
the filtered view drops it as well so that it stays a subsequence of the
item list (§3 invariant), and the highlight is adjusted by the §4.4
follow-or-reset policy. -/
def removeEverywhere (p : Nat) (m : BmMenu) : BmMenu :=
  let keep := fun (x : BmItem) => !(x.ptr == p)
  let newFiltered := m.filtered.filter keep
  { m with
      items := m.items.filter keep,
      filtered := newFiltered,
      selection := m.selection.filter keep,
      lastItems := m.lastItems.filter keep,
      index := followHighlight (bm_menu_get_highlighted_item m) newFiltered }

/-- `bm_menu_remove_item`: fails (`none`) when the item is not present. -/
def bm_menu_remove_item (m : BmMenu) (it : BmItem) : Option BmMenu :=
  if m.items.any (fun x => sameItem x it) then some (removeEverywhere it.ptr m)
  else none

/-- `bm_menu_remove_item_at`: remove by index into the full item list. -/
def bm_menu_remove_item_at (m : BmMenu) (i : Nat) : Option BmMenu :=
  match m.items[i]? with
  | some it => some (removeEverywhere it.ptr m)
  | none => none

/-- Modelled from the spec: `bm_menu_set_items` replaces the entire item
list and clears the selection, the highlight and the filtered view. -/
def bm_menu_set_items (m : BmMenu) (its : List BmItem) : BmMenu :=
  { m with items := its, filtered := [], selection := [], index := 0,
           lastItems := [] }

/-- Toggle an item's membership in a selection list (identity comparison):
remove it if present, append it if absent. -/
def toggleInList (sel : List BmItem) (it : BmItem) : List BmItem :=
  if sel.any (fun x => sameItem x it) then sel.filter (fun x => !(sameItem x it))
  else sel ++ [it]

/-- Modelled from the spec (§4.5, Return): toggle the item into/out of the
menu's selection set. -/
def toggleSelection (m : BmMenu) (it : BmItem) : BmMenu :=
  { m with selection := toggleInList m.selection it }

/-- Modelled from the spec (§4.5, Down): move the highlight one position
forward in the filtered list; at the last position, wrap to index 0 when
wrap is enabled, otherwise no-op. -/
def highlightDown (m : BmMenu) : BmMenu :=
  if m.filtered.length = 0 then m
  else if m.index + 1 < m.filtered.length then { m with index := m.index + 1 }
  else if m.wrap then { m with index := 0 }
  else m

/-- Modelled from the spec (§4.5, Up): move the highlight one position back;
at index 0, wrap to the last position when wrap is enabled, otherwise
no-op. -/
def highlightUp (m : BmMenu) : BmMenu :=
  if m.filtered.length = 0 then m
  else if 0 < m.index then { m with index := m.index - 1 }
  else if m.wrap then { m with index := m.filtered.length - 1 }
  else m

/-- Modelled from the spec (§4.5, Home): highlight jumps to the first
filtered item. -/
def highlightHome (m : BmMenu) : BmMenu :=
  if m.filtered.length = 0 then m else { m with index := 0 }

/-- Modelled from the spec (§4.5, End): highlight jumps to the last
filtered item. -/
def highlightEnd (m : BmMenu) : BmMenu :=
  if m.filtered.length = 0 then m else { m with index := m.filtered.length - 1 }

/-- Modelled from the spec (§4.5): the page-navigation step is the
configured visible-line count, or a fixed step of one in single-line
layout. -/
def pageStep (m : BmMenu) : Nat := if m.lines = 0 then 1 else m.lines

/-- Target index of Page-Down: wrapped modulo the filtered length when wrap
is enabled, otherwise clamped to the last position. -/
def pageDownIndex (m : BmMenu) : Nat :=
  if m.wrap then (m.index + pageStep m) % m.filtered.length
  else min (m.index + pageStep m) (m.filtered.length - 1)

/-- Target index of Page-Up: wrapped modulo the filtered length when wrap is
enabled, otherwise clamped at 0 (truncated subtraction). -/
def pageUpIndex (m : BmMenu) : Nat :=
  if m.wrap then
    (m.index + (m.filtered.length - pageStep m % m.filtered.length)) % m.filtered.length
  else m.index - pageStep m

/-- Modelled from the spec (§4.5, Page-Down). -/
def highlightPageDown (m : BmMenu) : BmMenu :=
  if m.filtered.length = 0 then m else { m with index := pageDownIndex m }

/-- Modelled from the spec (§4.5, Page-Up). -/
def highlightPageUp (m : BmMenu) : BmMenu :=
  if m.filtered.length = 0 then m else { m with index := pageUpIndex m }

/-- Toggle selection membership for the filtered items at the given
indices (multi-select sweep helper). -/
def sweepSelection (fil : List BmItem) (sel : List BmItem) : List Nat → List BmItem
  | [] => sel
  | i :: is =>
    match fil[i]? with
    | some it => sweepSelection fil (toggleInList sel it) is
    | none => sweepSelection fil sel is

/-- Modelled from the spec (§4.5, Shift-Page-Down): same movement as
Page-Down, additionally toggling selection membership for every item passed
over (the starting position and the intermediate ones, the destination
excluded). -/
def highlightShiftPageDown (m : BmMenu) : BmMenu :=
  if m.filtered.length = 0 then m
  else
    { m with index := pageDownIndex m,
             selection := sweepSelection m.filtered m.selection
               (List.range' m.index (pageDownIndex m - m.index)) }

/-- Modelled from the spec (§4.5, Shift-Page-Up): same movement as Page-Up,
toggling selection membership for every item passed over. -/
def highlightShiftPageUp (m : BmMenu) : BmMenu :=
  if m.filtered.length = 0 then m
  else
    { m with index := pageUpIndex m,
             selection := sweepSelection m.filtered m.selection
               (List.range' (pageUpIndex m + 1) (m.index - pageUpIndex m)) }

/-- Modelled from the spec (§4.5, Tab): cycle the highlight forward by one
without filtering. -/
def highlightTabNext (m : BmMenu) : BmMenu :=
  if m.filtered.length = 0 then m
  else { m with index := (m.index + 1) % m.filtered.length }

/-- Modelled from the spec (§4.5, Shift-Tab): cycle the highlight backward
by one without filtering. -/
def highlightTabPrev (m : BmMenu) : BmMenu :=
  if m.filtered.length = 0 then m
  else { m with index := (m.index + (m.filtered.length - 1)) % m.filtered.length }

/-- Modelled from the spec (§4.5, literal character): insert the character
at the edit caret in the filter text, advance the caret, and re-filter. -/
def editInsert (m : BmMenu) (c : Char) : BmMenu :=
  bm_menu_filter
    { m with filterText := insertAt m.cursor c m.filterText, cursor := m.cursor + 1 }

/-- Modelled from the spec (§4.5, Backspace): remove the character before
the caret and re-filter; no-op at the start of the text. -/
def editBackspace (m : BmMenu) : BmMenu :=
  if m.cursor = 0 then m
  else bm_menu_filter
    { m with filterText := m.filterText.eraseIdx (m.cursor - 1), cursor := m.cursor - 1 }

/-- Modelled from the spec (§4.5, Delete): remove the character after the
caret and re-filter; no-op at the end of the text. -/
def editDelete (m : BmMenu) : BmMenu :=
  if m.cursor < m.filterText.length then
    bm_menu_filter { m with filterText := m.filterText.eraseIdx m.cursor }
  else m

/-- Modelled from the spec (§4.5, line-delete-left): remove everything
before the caret and re-filter. -/
def editDeleteLeft (m : BmMenu) : BmMenu :=
  if m.cursor = 0 then m
  else bm_menu_filter { m with filterText := m.filterText.drop m.cursor, cursor := 0 }

/-- Modelled from the spec (§4.5, line-delete-right): remove everything
after the caret and re-filter. -/
def editDeleteRight (m : BmMenu) : BmMenu :=
  if m.cursor < m.filterText.length then
    bm_menu_filter { m with filterText := m.filterText.take m.cursor }
  else m

/-- Modelled from the spec (§4.5, word-delete): remove the run of trailing
blanks and the word before the caret, then re-filter. -/
def editDeleteWord (m : BmMenu) : BmMenu :=
  if m.cursor = 0 then m
  else
    bm_menu_filter
      { m with
          filterText :=
            (((m.filterText.take m.cursor).reverse.dropWhile (fun c => c == ' ')).dropWhile
                (fun c => !(c == ' '))).reverse ++ m.filterText.drop m.cursor,
          cursor :=
            (((m.filterText.take m.cursor).reverse.dropWhile (fun c => c == ' ')).dropWhile
                (fun c => !(c == ' '))).length }

/-- Modelled from the spec (§4.5, Left): in single-line layout move the
highlight back; in multi-line layout move the edit caret back. -/
def moveLeft (m : BmMenu) : BmMenu :=
  if m.lines = 0 then highlightUp m else { m with cursor := m.cursor - 1 }

/-- Modelled from the spec (§4.5, Right): in single-line layout move the
highlight forward; in multi-line layout move the edit caret forward. -/
def moveRight (m : BmMenu) : BmMenu :=
  if m.lines = 0 then highlightDown m
  else { m with cursor := min (m.cursor + 1) m.filterText.length }

/-- Modelled from the spec (§4.5): `bm_menu_run_with_key` consumes one key
event (plus a literal character for BM_KEY_UNICODE) and yields the updated
menu together with a run result.  Return toggles the highlighted item in
the selection set and yields SELECTED; Shift-Return yields SELECTED with
the typed filter text itself as the ad-hoc result (conveyed through the run
result, the stored state left as-is, a duality the spec leaves open in §9);
Control-Return yields SELECTED keeping the selection set exactly as-is;
Escape yields CANCEL with no state mutation. -/
def bm_menu_run_with_key (m : BmMenu) (key : BmKey) (unicode : Char) :
    BmMenu × BmRunResult :=
  match key with
  | BmKey.BM_KEY_NONE => (m, BmRunResult.BM_RUN_RESULT_RUNNING)
  | BmKey.BM_KEY_UP => (highlightUp m, BmRunResult.BM_RUN_RESULT_RUNNING)
  | BmKey.BM_KEY_DOWN => (highlightDown m, BmRunResult.BM_RUN_RESULT_RUNNING)
  | BmKey.BM_KEY_LEFT => (moveLeft m, BmRunResult.BM_RUN_RESULT_RUNNING)
  | BmKey.BM_KEY_RIGHT => (moveRight m, BmRunResult.BM_RUN_RESULT_RUNNING)
  | BmKey.BM_KEY_HOME => (highlightHome m, BmRunResult.BM_RUN_RESULT_RUNNING)
  | BmKey.BM_KEY_END => (highlightEnd m, BmRunResult.BM_RUN_RESULT_RUNNING)
  | BmKey.BM_KEY_PAGE_UP => (highlightPageUp m, BmRunResult.BM_RUN_RESULT_RUNNING)
  | BmKey.BM_KEY_PAGE_DOWN => (highlightPageDown m, BmRunResult.BM_RUN_RESULT_RUNNING)
  | BmKey.BM_KEY_SHIFT_PAGE_UP =>
      (highlightShiftPageUp m, BmRunResult.BM_RUN_RESULT_RUNNING)
  | BmKey.BM_KEY_SHIFT_PAGE_DOWN =>
      (highlightShiftPageDown m, BmRunResult.BM_RUN_RESULT_RUNNING)
  | BmKey.BM_KEY_BACKSPACE => (editBackspace m, BmRunResult.BM_RUN_RESULT_RUNNING)
  | BmKey.BM_KEY_DELETE => (editDelete m, BmRunResult.BM_RUN_RESULT_RUNNING)
  | BmKey.BM_KEY_LINE_DELETE_LEFT =>
      (editDeleteLeft m, BmRunResult.BM_RUN_RESULT_RUNNING)
  | BmKey.BM_KEY_LINE_DELETE_RIGHT =>
      (editDeleteRight m, BmRunResult.BM_RUN_RESULT_RUNNING)
  | BmKey.BM_KEY_WORD_DELETE => (editDeleteWord m, BmRunResult.BM_RUN_RESULT_RUNNING)
  | BmKey.BM_KEY_TAB => (highlightTabNext m, BmRunResult.BM_RUN_RESULT_RUNNING)
  | BmKey.BM_KEY_SHIFT_TAB => (highlightTabPrev m, BmRunResult.BM_RUN_RESULT_RUNNING)
  | BmKey.BM_KEY_ESCAPE => (m, BmRunResult.BM_RUN_RESULT_CANCEL)
  | BmKey.BM_KEY_RETURN =>
      (match bm_menu_get_highlighted_item m with
       | some it => (toggleSelection m it, BmRunResult.BM_RUN_RESULT_SELECTED)
       | none => (m, BmRunResult.BM_RUN_RESULT_SELECTED))
  | BmKey.BM_KEY_SHIFT_RETURN => (m, BmRunResult.BM_RUN_RESULT_SELECTED)
  | BmKey.BM_KEY_CONTROL_RETURN => (m, BmRunResult.BM_RUN_RESULT_SELECTED)
  | BmKey.BM_KEY_UNICODE => (editInsert m unicode, BmRunResult.BM_RUN_RESULT_RUNNING)
  | BmKey.BM_KEY_LAST => (m, BmRunResult.BM_RUN_RESULT_RUNNING)

/-- A menu state is reachable when it arises from `bm_menu_new` by a finite
sequence of the engine's public operations (failing operations leave the
state unchanged, so only their successful outcomes appear). -/
inductive Reachable : BmMenu → Prop where
  | new_menu : Reachable bm_menu_new
  | add_item_at {m m2 : BmMenu} {it : BmItem} {i : Nat} :
      Reachable m → bm_menu_add_item_at m it i = some m2 → Reachable m2
  | add_item {m m2 : BmMenu} {it : BmItem} :
      Reachable m → bm_menu_add_item m it = some m2 → Reachable m2
  | remove_item {m m2 : BmMenu} {it : BmItem} :
      Reachable m → bm_menu_remove_item m it = some m2 → Reachable m2
  | remove_item_at {m m2 : BmMenu} {i : Nat} :
      Reachable m → bm_menu_remove_item_at m i = some m2 → Reachable m2
  | set_items {m : BmMenu} (its : List BmItem) :
      Reachable m → Reachable (bm_menu_set_items m its)
  | set_filter {m : BmMenu} (t : List Char) :
      Reachable m → Reachable (bm_menu_set_filter m t)
  | set_filter_mode {m : BmMenu} (mode : BmFilterMode) :
      Reachable m → Reachable (bm_menu_set_filter_mode m mode)
  | set_wrap {m : BmMenu} (w : Bool) :
      Reachable m → Reachable (bm_menu_set_wrap m w)
  | set_lines {m : BmMenu} (n : Nat) :
      Reachable m → Reachable (bm_menu_set_lines m n)
  | set_highlighted_index {m m2 : BmMenu} {i : Nat} :
      Reachable m → bm_menu_set_highlighted_index m i = some m2 → Reachable m2
  | set_highlighted_item {m m2 : BmMenu} {it : BmItem} :
      Reachable m → bm_menu_set_highlighted_item m it = some m2 → Reachable m2
  | set_selected_items {m : BmMenu} (its : List BmItem) :
      Reachable m → Reachable (bm_menu_set_selected_items m its)
  | filter_step {m : BmMenu} :
      Reachable m → Reachable (bm_menu_filter m)
  | run_key {m : BmMenu} (k : BmKey) (u : Char) :
      Reachable m → Reachable (bm_menu_run_with_key m k u).1

theorem findIndex_lt_length {α : Type} {p : α → Bool} :
    ∀ {l : List α} {i : Nat}, findIndex p l = some i → i < l.length := by
  intro l
  induction l with
  | nil => intro i h; simp [findIndex] at h
  | cons a t ih =>
    intro i h
    by_cases hp : p a = true
    · simp [findIndex, hp] at h
      simp [← h]
    · simp [findIndex, hp] at h
      obtain ⟨j, hj, hji⟩ := h
      have := ih hj
      rw [List.length_cons]
      omega

theorem findIndex_found {α : Type} {p : α → Bool} :
    ∀ {l : List α} {i : Nat}, findIndex p l = some i →
      ∃ x, l[i]? = some x ∧ p x = true := by
  intro l
  induction l with
  | nil => intro i h; simp [findIndex] at h
  | cons a t ih =>
    intro i h
    by_cases hp : p a = true
    · simp [findIndex, hp] at h
      exact ⟨a, by simp [← h], hp⟩
    · simp [findIndex, hp] at h
      obtain ⟨j, hj, hji⟩ := h
      obtain ⟨x, hx, hpx⟩ := ih hj
      exact ⟨x, by simpa [← hji] using hx, hpx⟩

theorem findIndex_isSome_of_exists {α : Type} {p : α → Bool} :
    ∀ {l : List α}, (∃ x ∈ l, p x = true) → ∃ i, findIndex p l = some i := by
  intro l
  induction l with
  | nil => intro h; simp at h
  | cons a t ih =>
    intro h
    by_cases hp : p a = true
    · exact ⟨0, by simp [findIndex, hp]⟩
    · obtain ⟨x, hx, hpx⟩ := h
      rcases List.mem_cons.mp hx with rfl | hxt
      · exact absurd hpx hp
      · obtain ⟨i, hi⟩ := ih ⟨x, hxt, hpx⟩
        exact ⟨i + 1, by simp [findIndex, hp, hi]⟩

theorem findIndex_eq_none_of_all {α : Type} {p : α → Bool} :
    ∀ {l : List α}, (∀ x ∈ l, p x = false) → findIndex p l = none := by
  intro l
  induction l with
  | nil => intro _; rfl
  | cons a t ih =>
    intro h
    have ha := h a (List.mem_cons_self a t)
    have ht := ih (fun x hx => h x (List.mem_cons_of_mem a hx))
    simp [findIndex, ha, ht]

theorem followHighlight_some_eq {it : BmItem} {l : List BmItem} {i : Nat}
    (h : findIndex (fun x => sameItem x it) l = some i) :
    followHighlight (some it) l = i := by
  simp [followHighlight, h]

theorem followHighlight_some_zero {it : BmItem} {l : List BmItem}
    (h : findIndex (fun x => sameItem x it) l = none) :
    followHighlight (some it) l = 0 := by
  simp [followHighlight, h]

theorem followHighlight_lt (prev : Option BmItem) {l : List BmItem} (h : l ≠ []) :
    followHighlight prev l < l.length := by
  have hpos : 0 < l.length := List.length_pos.mpr h
  cases prev with
  | none => simpa [followHighlight] using hpos
  | some it =>
    cases hf : findIndex (fun x => sameItem x it) l with
    | none => simpa [followHighlight, hf] using hpos
    | some i => simpa [followHighlight, hf] using findIndex_lt_length hf

/-- The container invariant (spec §3): the filtered view is an
order-preserving subsequence of the item list; it equals the filter of the
(still existing) items from the last recomputation by the filter text and
mode active then; and the highlighted index is in range whenever the
filtered view is non-empty. -/
def MenuInv (m : BmMenu) : Prop :=
  m.filtered.Sublist m.items ∧
  m.filtered = m.lastItems.filter (itemMatches m.lastMode m.lastFilter) ∧
  (m.filtered ≠ [] → m.index < m.filtered.length)

theorem menuInv_new : MenuInv bm_menu_new :=
  ⟨List.Sublist.refl _, rfl, fun h => absurd rfl h⟩

theorem menuInv_filter (m : BmMenu) : MenuInv (bm_menu_filter m) := by
  refine ⟨List.filter_sublist _, rfl, ?_⟩
  intro h
  exact followHighlight_lt _ h

theorem sublist_insertAt {α : Type} (a : α) :
    ∀ (l : List α) (n : Nat), l.Sublist (insertAt n a l) := by
  intro l
  induction l with
  | nil => intro n; simp [insertAt]
  | cons b t ih =>
    intro n
    cases n with
    | zero => exact List.sublist_cons_of_sublist a (List.Sublist.refl _)
    | succ k => exact List.Sublist.cons₂ b (ih k)

theorem menuInv_add_item_at {m m2 : BmMenu} {it : BmItem} {i : Nat}
    (h : MenuInv m) (hs : bm_menu_add_item_at m it i = some m2) : MenuInv m2 := by
  unfold bm_menu_add_item_at at hs
  by_cases hp : m.items.any (fun x => sameItem x it) = true
  · simp [hp] at hs
  · simp [hp] at hs
    subst hs
    exact ⟨h.1.trans (sublist_insertAt it m.items i), h.2.1, h.2.2⟩

theorem menuInv_add_item {m m2 : BmMenu} {it : BmItem}
    (h : MenuInv m) (hs : bm_menu_add_item m it = some m2) : MenuInv m2 :=
  menuInv_add_item_at h hs

theorem menuInv_removeEverywhere {m : BmMenu} (p : Nat) (h : MenuInv m) :
    MenuInv (removeEverywhere p m) := by
  refine ⟨List.Sublist.filter _ h.1, ?_, ?_⟩
  · show m.filtered.filter _ = (m.lastItems.filter _).filter _
    rw [h.2.1, List.filter_filter, List.filter_filter]
    exact List.filter_congr (fun x _ => Bool.and_comm _ _)
  · intro hne
    exact followHighlight_lt _ hne

theorem menuInv_remove_item {m m2 : BmMenu} {it : BmItem}
    (h : MenuInv m) (hs : bm_menu_remove_item m it = some m2) : MenuInv m2 := by
  unfold bm_menu_remove_item at hs
  by_cases hp : m.items.any (fun x => sameItem x it) = true
  · simp [hp] at hs
    exact hs ▸ menuInv_removeEverywhere it.ptr h
  · simp [hp] at hs

theorem menuInv_remove_item_at {m m2 : BmMenu} {i : Nat}
    (h : MenuInv m) (hs : bm_menu_remove_item_at m i = some m2) : MenuInv m2 := by
  unfold bm_menu_remove_item_at at hs
  cases hg : m.items[i]? with
  | none => simp [hg] at hs
  | some it =>
    simp [hg] at hs
    exact hs ▸ menuInv_removeEverywhere it.ptr h

theorem menuInv_set_items {m : BmMenu} (its : List BmItem) (_ : MenuInv m) :
    MenuInv (bm_menu_set_items m its) :=
  ⟨List.nil_sublist _, rfl, fun h => absurd rfl h⟩

theorem menuInv_set_filter {m : BmMenu} (t : List Char) (h : MenuInv m) :
    MenuInv (bm_menu_set_filter m t) :=
  ⟨h.1, h.2.1, h.2.2⟩

theorem menuInv_set_filter_mode {m : BmMenu} (mode : BmFilterMode) (h : MenuInv m) :
    MenuInv (bm_menu_set_filter_mode m mode) :=
  ⟨h.1, h.2.1, h.2.2⟩

theorem menuInv_set_wrap {m : BmMenu} (w : Bool) (h : MenuInv m) :
    MenuInv (bm_menu_set_wrap m w) :=
  ⟨h.1, h.2.1, h.2.2⟩

theorem menuInv_set_lines {m : BmMenu} (n : Nat) (h : MenuInv m) :
    MenuInv (bm_menu_set_lines m n) :=
  ⟨h.1, h.2.1, h.2.2⟩

theorem menuInv_set_selected_items {m : BmMenu} (its : List BmItem) (h : MenuInv m) :
    MenuInv (bm_menu_set_selected_items m its) :=
  ⟨h.1, h.2.1, h.2.2⟩

theorem menuInv_set_highlighted_index {m m2 : BmMenu} {i : Nat}
    (h : MenuInv m) (hs : bm_menu_set_highlighted_index m i = some m2) : MenuInv m2 := by
  unfold bm_menu_set_highlighted_index at hs
  by_cases hlt : i < m.filtered.length
  · simp [hlt] at hs
    exact hs ▸ ⟨h.1, h.2.1, fun _ => hlt⟩
  · simp [hlt] at hs

theorem menuInv_set_highlighted_item {m m2 : BmMenu} {it : BmItem}
    (h : MenuInv m) (hs : bm_menu_set_highlighted_item m it = some m2) : MenuInv m2 := by
  unfold bm_menu_set_highlighted_item at hs
  cases hf : findIndex (fun x => sameItem x it) m.filtered with
  | none => simp [hf] at hs
  | some i =>
    simp [hf] at hs
    exact hs ▸ ⟨h.1, h.2.1, fun _ => findIndex_lt_length hf⟩

theorem menuInv_with_index {m : BmMenu} {i : Nat} (h : MenuInv m)
    (hi : m.filtered ≠ [] → i < m.filtered.length) : MenuInv { m with index := i } :=
  ⟨h.1, h.2.1, hi⟩

theorem length_ne_zero_of_ne_nil {α : Type} {l : List α} (h : l ≠ []) :
    l.length ≠ 0 :=
  fun hc => h (List.length_eq_zero.mp hc)

theorem ne_nil_of_length_ne_zero {α : Type} {l : List α} (h : l.length ≠ 0) :
    l ≠ [] :=
  fun hc => h (hc ▸ rfl)

theorem menuInv_highlightDown {m : BmMenu} (h : MenuInv m) :
    MenuInv (highlightDown m) := by
  unfold highlightDown
  by_cases h0 : m.filtered.length = 0
  · simpa [h0] using h
  · by_cases h1 : m.index + 1 < m.filtered.length
    · simpa [h0, h1] using menuInv_with_index h (fun _ => by omega)
    · by_cases hw : m.wrap = true
      · simpa [h0, h1, hw] using menuInv_with_index h (fun _ => by omega)
      · simpa [h0, h1, hw] using h

theorem menuInv_highlightUp {m : BmMenu} (h : MenuInv m) :
    MenuInv (highlightUp m) := by
  unfold highlightUp
  by_cases h0 : m.filtered.length = 0
  · simpa [h0] using h
  · by_cases h1 : 0 < m.index
    · have hlt := h.2.2 (ne_nil_of_length_ne_zero h0)
      simpa [h0, h1] using menuInv_with_index h (fun _ => by omega)
    · by_cases hw : m.wrap = true
      · simpa [h0, h1, hw] using menuInv_with_index h (fun _ => by omega)
      · simpa [h0, h1, hw] using h

theorem menuInv_highlightHome {m : BmMenu} (h : MenuInv m) :
    MenuInv (highlightHome m) := by
  unfold highlightHome
  by_cases h0 : m.filtered.length = 0
  · simpa [h0] using h
  · simpa [h0] using menuInv_with_index h (fun _ => by omega)

theorem menuInv_highlightEnd {m : BmMenu} (h : MenuInv m) :
    MenuInv (highlightEnd m) := by
  unfold highlightEnd
  by_cases h0 : m.filtered.length = 0
  · simpa [h0] using h
  · simpa [h0] using menuInv_with_index h (fun _ => by omega)

theorem pageDownIndex_lt {m : BmMenu} (h0 : m.filtered.length ≠ 0) :
    pageDownIndex m < m.filtered.length := by
  unfold pageDownIndex
  by_cases hw : m.wrap = true
  · simpa [hw] using Nat.mod_lt _ (Nat.pos_of_ne_zero h0)
  · simp [hw]
    omega

theorem pageUpIndex_lt {m : BmMenu} (h0 : m.filtered.length ≠ 0)
    (hidx : m.index < m.filtered.length) :
    pageUpIndex m < m.filtered.length := by
  unfold pageUpIndex
  by_cases hw : m.wrap = true
  · simpa [hw] using Nat.mod_lt _ (Nat.pos_of_ne_zero h0)
  · simp [hw]
    omega

theorem menuInv_highlightPageDown {m : BmMenu} (h : MenuInv m) :
    MenuInv (highlightPageDown m) := by
  unfold highlightPageDown
  by_cases h0 : m.filtered.length = 0
  · simpa [h0] using h
  · simpa [h0] using menuInv_with_index h (fun _ => pageDownIndex_lt h0)

theorem menuInv_highlightPageUp {m : BmMenu} (h : MenuInv m) :
    MenuInv (highlightPageUp m) := by
  unfold highlightPageUp
  by_cases h0 : m.filtered.length = 0
  · simpa [h0] using h
  · have hidx := h.2.2 (ne_nil_of_length_ne_zero h0)
    simpa [h0] using menuInv_with_index h (fun _ => pageUpIndex_lt h0 hidx)

theorem menuInv_with_index_sel {m : BmMenu} {i : Nat} {s : List BmItem}
    (h : MenuInv m) (hi : m.filtered ≠ [] → i < m.filtered.length) :
    MenuInv { m with index := i, selection := s } :=
  ⟨h.1, h.2.1, hi⟩

theorem menuInv_highlightShiftPageDown {m : BmMenu} (h : MenuInv m) :
    MenuInv (highlightShiftPageDown m) := by
  unfold highlightShiftPageDown
  by_cases h0 : m.filtered.length = 0
  · simpa [h0] using h
  · simpa [h0] using menuInv_with_index_sel h (fun _ => pageDownIndex_lt h0)

theorem menuInv_highlightShiftPageUp {m : BmMenu} (h : MenuInv m) :
    MenuInv (highlightShiftPageUp m) := by
  unfold highlightShiftPageUp
  by_cases h0 : m.filtered.length = 0
  · simpa [h0] using h
  · have hidx := h.2.2 (ne_nil_of_length_ne_zero h0)
    simpa [h0] using menuInv_with_index_sel h (fun _ => pageUpIndex_lt h0 hidx)

theorem menuInv_highlightTabNext {m : BmMenu} (h : MenuInv m) :
    MenuInv (highlightTabNext m) := by
  unfold highlightTabNext
  by_cases h0 : m.filtered.length = 0
  · simpa [h0] using h
  · simpa [h0] using
      menuInv_with_index h (fun _ => Nat.mod_lt _ (Nat.pos_of_ne_zero h0))

theorem menuInv_highlightTabPrev {m : BmMenu} (h : MenuInv m) :
    MenuInv (highlightTabPrev m) := by
  unfold highlightTabPrev
  by_cases h0 : m.filtered.length = 0
  · simpa [h0] using h
  · simpa [h0] using
      menuInv_with_index h (fun _ => Nat.mod_lt _ (Nat.pos_of_ne_zero h0))

theorem menuInv_toggleSelection {m : BmMenu} (it : BmItem) (h : MenuInv m) :
    MenuInv (toggleSelection m it) :=
  ⟨h.1, h.2.1, h.2.2⟩

theorem menuInv_editInsert {m : BmMenu} (c : Char) :
    MenuInv (editInsert m c) :=
  menuInv_filter _

theorem menuInv_editBackspace {m : BmMenu} (h : MenuInv m) :
    MenuInv (editBackspace m) := by
  unfold editBackspace
  by_cases h0 : m.cursor = 0
  · simpa [h0] using h
  · simpa [h0] using menuInv_filter _

theorem menuInv_editDelete {m : BmMenu} (h : MenuInv m) :
    MenuInv (editDelete m) := by
  unfold editDelete
  by_cases h0 : m.cursor < m.filterText.length
  · simpa [h0] using menuInv_filter _
  · simpa [h0] using h

theorem menuInv_editDeleteLeft {m : BmMenu} (h : MenuInv m) :
    MenuInv (editDeleteLeft m) := by
  unfold editDeleteLeft
  by_cases h0 : m.cursor = 0
  · simpa [h0] using h
  · simpa [h0] using menuInv_filter _

theorem menuInv_editDeleteRight {m : BmMenu} (h : MenuInv m) :
    MenuInv (editDeleteRight m) := by
  unfold editDeleteRight
  by_cases h0 : m.cursor < m.filterText.length
  · simpa [h0] using menuInv_filter _
  · simpa [h0] using h

theorem menuInv_editDeleteWord {m : BmMenu} (h : MenuInv m) :
    MenuInv (editDeleteWord m) := by
  unfold editDeleteWord
  by_cases h0 : m.cursor = 0
  · simpa [h0] using h
  · simpa [h0] using menuInv_filter _

theorem menuInv_moveLeft {m : BmMenu} (h : MenuInv m) :
    MenuInv (moveLeft m) := by
  unfold moveLeft
  by_cases h0 : m.lines = 0
  · simpa [h0] using menuInv_highlightUp h
  · simpa [h0] using (⟨h.1, h.2.1, h.2.2⟩ : MenuInv { m with cursor := m.cursor - 1 })

theorem menuInv_moveRight {m : BmMenu} (h : MenuInv m) :
    MenuInv (moveRight m) := by
  unfold moveRight
  by_cases h0 : m.lines = 0
  · simpa [h0] using menuInv_highlightDown h
  · simpa [h0] using
      (⟨h.1, h.2.1, h.2.2⟩ :
        MenuInv { m with cursor := min (m.cursor + 1) m.filterText.length })

theorem menuInv_run {m : BmMenu} (h : MenuInv m) (k : BmKey) (u : Char) :
    MenuInv (bm_menu_run_with_key m k u).1 := by
  cases k with
  | BM_KEY_NONE => exact h
  | BM_KEY_UP => exact menuInv_highlightUp h
  | BM_KEY_DOWN => exact menuInv_highlightDown h
  | BM_KEY_LEFT => exact menuInv_moveLeft h
  | BM_KEY_RIGHT => exact menuInv_moveRight h
  | BM_KEY_HOME => exact menuInv_highlightHome h
  | BM_KEY_END => exact menuInv_highlightEnd h
  | BM_KEY_PAGE_UP => exact menuInv_highlightPageUp h
  | BM_KEY_PAGE_DOWN => exact menuInv_highlightPageDown h
  | BM_KEY_SHIFT_PAGE_UP => exact menuInv_highlightShiftPageUp h
  | BM_KEY_SHIFT_PAGE_DOWN => exact menuInv_highlightShiftPageDown h
  | BM_KEY_BACKSPACE => exact menuInv_editBackspace h
  | BM_KEY_DELETE => exact menuInv_editDelete h
  | BM_KEY_LINE_DELETE_LEFT => exact menuInv_editDeleteLeft h
  | BM_KEY_LINE_DELETE_RIGHT => exact menuInv_editDeleteRight h
  | BM_KEY_WORD_DELETE => exact menuInv_editDeleteWord h
  | BM_KEY_TAB => exact menuInv_highlightTabNext h
  | BM_KEY_SHIFT_TAB => exact menuInv_highlightTabPrev h
  | BM_KEY_ESCAPE => exact h
  | BM_KEY_RETURN =>
    show MenuInv (bm_menu_run_with_key m BmKey.BM_KEY_RETURN u).1
    unfold bm_menu_run_with_key
    cases hit : bm_menu_get_highlighted_item m with
    | some it => simpa [hit] using menuInv_toggleSelection it h
    | none => simpa [hit] using h
  | BM_KEY_SHIFT_RETURN => exact h
  | BM_KEY_CONTROL_RETURN => exact h
  | BM_KEY_UNICODE => exact menuInv_editInsert u
  | BM_KEY_LAST => exact h

/-- Every reachable menu state satisfies the container invariant. -/
theorem menuInv_reachable {m : BmMenu} (h : Reachable m) : MenuInv m := by
  induction h with
  | new_menu => exact menuInv_new
  | add_item_at _ hs ih => exact menuInv_add_item_at ih hs
  | add_item _ hs ih => exact menuInv_add_item ih hs
  | remove_item _ hs ih => exact menuInv_remove_item ih hs
  | remove_item_at _ hs ih => exact menuInv_remove_item_at ih hs
  | set_items its _ ih => exact menuInv_set_items its ih
  | set_filter t _ ih => exact menuInv_set_filter t ih
  | set_filter_mode mode _ ih => exact menuInv_set_filter_mode mode ih
  | set_wrap w _ ih => exact menuInv_set_wrap w ih
  | set_lines n _ ih => exact menuInv_set_lines n ih
  | set_highlighted_index _ hs ih => exact menuInv_set_highlighted_index ih hs
  | set_highlighted_item _ hs ih => exact menuInv_set_highlighted_item ih hs
  | set_selected_items its _ ih => exact menuInv_set_selected_items its ih
  | filter_step _ _ => exact menuInv_filter _
  | run_key k u _ ih => exact menuInv_run ih k u

theorem startsWith_iff {n h : List Char} :
    startsWith n h = true ↔ ∃ r, h = n ++ r := by
  induction n generalizing h with
  | nil => simp [startsWith]
  | cons c cs ih =>
    cases h with
    | nil =>
      simp [startsWith]
    | cons d ds =>
      simp only [startsWith, Bool.and_eq_true, beq_iff_eq, ih, List.cons_append,
        List.cons.injEq]
      constructor
      · rintro ⟨rfl, r, rfl⟩
        exact ⟨r, rfl, rfl⟩
      · rintro ⟨r, rfl, rfl⟩
        exact ⟨rfl, r, rfl⟩

theorem startsWith_self_append (n r : List Char) :
    startsWith n (n ++ r) = true :=
  startsWith_iff.mpr ⟨r, rfl⟩

theorem containsChars_iff {n h : List Char} :
    containsChars n h = true ↔ ∃ l r, h = l ++ n ++ r := by
  induction h with
  | nil =>
    simp only [containsChars, startsWith_iff]
    constructor
    · rintro ⟨r, hr⟩
      rcases List.append_eq_nil.mp hr.symm with ⟨rfl, rfl⟩
      exact ⟨[], [], rfl⟩
    · rintro ⟨l, r, hr⟩
      rcases List.append_eq_nil.mp ((List.append_assoc l n r ▸ hr).symm) with ⟨rfl, h2⟩
      rcases List.append_eq_nil.mp h2 with ⟨rfl, rfl⟩
      exact ⟨[], rfl⟩
  | cons d t ih =>
    simp only [containsChars, Bool.or_eq_true, startsWith_iff, ih]
    constructor
    · rintro (⟨r, hr⟩ | ⟨l, r, hr⟩)
      · exact ⟨[], r, by simpa using hr⟩
      · exact ⟨d :: l, r, by simpa using hr⟩
    · rintro ⟨l, r, hr⟩
      cases l with
      | nil => exact Or.inl ⟨r, by simpa using hr⟩
      | cons c ls =>
        rcases List.cons.injEq _ _ _ _ ▸ hr with ⟨rfl, ht⟩
        exact Or.inr ⟨ls, r, by simpa using ht⟩

theorem containsChars_nil (t : List Char) : containsChars [] t = true := by
  cases t <;> simp [containsChars, startsWith]

/-- C1: for every reachable menu state, the filtered item sequence returned
by `bm_menu_get_filtered_items` is an order-preserving subsequence of the
full item sequence returned by `bm_menu_get_items`, and it equals exactly
the filter of the (still existing) items by the filter text and mode active
at the time the filtered list was last computed by `bm_menu_filter`. -/
theorem C1_filtered_subsequence (m : BmMenu) (h : Reachable m) :
    (bm_menu_get_filtered_items m).Sublist (bm_menu_get_items m) ∧
    bm_menu_get_filtered_items m =
      m.lastItems.filter (itemMatches m.lastMode m.lastFilter) :=
  ⟨(menuInv_reachable h).1, (menuInv_reachable h).2.1⟩

/-- Witness for C1 at a concrete reachable state: a fresh menu whose item
list was set to one item and then filtered. -/
theorem C1_filtered_subsequence_witness :
    (bm_menu_get_filtered_items
        (bm_menu_filter (bm_menu_set_items bm_menu_new [bm_item_new 7 (some ['a'])]))).Sublist
      (bm_menu_get_items
        (bm_menu_filter (bm_menu_set_items bm_menu_new [bm_item_new 7 (some ['a'])]))) ∧
    bm_menu_get_filtered_items
        (bm_menu_filter (bm_menu_set_items bm_menu_new [bm_item_new 7 (some ['a'])])) =
      (bm_menu_filter (bm_menu_set_items bm_menu_new [bm_item_new 7 (some ['a'])])).lastItems.filter
        (itemMatches
          (bm_menu_filter (bm_menu_set_items bm_menu_new [bm_item_new 7 (some ['a'])])).lastMode
          (bm_menu_filter (bm_menu_set_items bm_menu_new [bm_item_new 7 (some ['a'])])).lastFilter) :=
  C1_filtered_subsequence _
    (Reachable.filter_step (Reachable.set_items _ Reachable.new_menu))

/-- C2: for every reachable menu state, the highlighted index is in range
of the filtered list whenever that list is non-empty; when it is empty,
`bm_menu_get_highlighted_item` returns no item; and
`bm_menu_set_highlighted_index` fails for every index out of range of the
filtered list. -/
theorem C2_highlight_range (m : BmMenu) (h : Reachable m) :
    (bm_menu_get_filtered_items m ≠ [] →
      m.index < (bm_menu_get_filtered_items m).length) ∧
    (bm_menu_get_filtered_items m = [] → bm_menu_get_highlighted_item m = none) ∧
    (∀ i, (bm_menu_get_filtered_items m).length ≤ i →
      bm_menu_set_highlighted_index m i = none) := by
  refine ⟨(menuInv_reachable h).2.2, ?_, ?_⟩
  · intro hnil
    simp [bm_menu_get_highlighted_item,
      show m.filtered = [] from hnil]
  · intro i hi
    have : ¬ i < m.filtered.length := by
      have : m.filtered.length ≤ i := hi
      omega
    simp [bm_menu_set_highlighted_index, this]

/-- Witness for C2 at a concrete reachable state with a non-empty filtered
list. -/
theorem C2_highlight_range_witness :
    (bm_menu_get_filtered_items
        (bm_menu_filter (bm_menu_set_items bm_menu_new [bm_item_new 3 (some ['x'])])) ≠ [] →
      (bm_menu_filter (bm_menu_set_items bm_menu_new [bm_item_new 3 (some ['x'])])).index <
        (bm_menu_get_filtered_items
          (bm_menu_filter (bm_menu_set_items bm_menu_new [bm_item_new 3 (some ['x'])]))).length) ∧
    (bm_menu_get_filtered_items
        (bm_menu_filter (bm_menu_set_items bm_menu_new [bm_item_new 3 (some ['x'])])) = [] →
      bm_menu_get_highlighted_item
        (bm_menu_filter (bm_menu_set_items bm_menu_new [bm_item_new 3 (some ['x'])])) = none) ∧
    (∀ i,
      (bm_menu_get_filtered_items
        (bm_menu_filter (bm_menu_set_items bm_menu_new [bm_item_new 3 (some ['x'])]))).length ≤ i →
      bm_menu_set_highlighted_index
        (bm_menu_filter (bm_menu_set_items bm_menu_new [bm_item_new 3 (some ['x'])])) i = none) :=
  C2_highlight_range _
    (Reachable.filter_step (Reachable.set_items _ Reachable.new_menu))

/-- C3: in DMENU mode `bm_menu_filter` keeps an item iff its text contains
the filter text as a contiguous, character-exact, case-sensitive substring
(an empty filter text keeps every item); in DMENU_CASE_INSENSITIVE mode the
same substring test is applied with case folded; filter text "ab" excludes
item text "AB123" in DMENU mode but includes it in the case-insensitive
mode. -/
theorem C3_substring_semantics :
    (∀ (m : BmMenu) (it : BmItem),
      m.filterMode = BmFilterMode.BM_FILTER_MODE_DMENU →
      (it ∈ bm_menu_get_filtered_items (bm_menu_filter m) ↔
        it ∈ bm_menu_get_items m ∧ ∃ l r, it.text = l ++ m.filterText ++ r)) ∧
    (∀ m : BmMenu,
      m.filterMode = BmFilterMode.BM_FILTER_MODE_DMENU → m.filterText = [] →
      bm_menu_get_filtered_items (bm_menu_filter m) = bm_menu_get_items m) ∧
    (∀ (m : BmMenu) (it : BmItem),
      m.filterMode = BmFilterMode.BM_FILTER_MODE_DMENU_CASE_INSENSITIVE →
      (it ∈ bm_menu_get_filtered_items (bm_menu_filter m) ↔
        it ∈ bm_menu_get_items m ∧
          ∃ l r, lowerChars it.text = l ++ lowerChars m.filterText ++ r)) ∧
    bm_menu_get_filtered_items
      (bm_menu_filter
        { bm_menu_new with
            items := [bm_item_new 0 (some ['A', 'B', '1', '2', '3'])],
            filterText := ['a', 'b'],
            filterMode := BmFilterMode.BM_FILTER_MODE_DMENU }) = [] ∧
    bm_menu_get_filtered_items
      (bm_menu_filter
        { bm_menu_new with
            items := [bm_item_new 0 (some ['A', 'B', '1', '2', '3'])],
            filterText := ['a', 'b'],
            filterMode := BmFilterMode.BM_FILTER_MODE_DMENU_CASE_INSENSITIVE }) =
      [bm_item_new 0 (some ['A', 'B', '1', '2', '3'])] := by
  refine ⟨?_, ?_, ?_, by decide, by decide⟩
  · intro m it hmode
    simp [bm_menu_get_filtered_items, bm_menu_get_items, bm_menu_filter,
      List.mem_filter, itemMatches, hmode, containsChars_iff]
  · intro m hmode htext
    simp only [bm_menu_get_filtered_items, bm_menu_get_items, bm_menu_filter]
    exact List.filter_eq_self.mpr
      (fun it _ => by simp [itemMatches, hmode, htext, containsChars_nil])
  · intro m it hmode
    simp [bm_menu_get_filtered_items, bm_menu_get_items, bm_menu_filter,
      List.mem_filter, itemMatches, hmode, containsChars_iff]

/-- Witness for C3: a concrete item is kept by a concrete DMENU-mode filter
because its text contains the filter text contiguously. -/
theorem C3_substring_semantics_witness :
    bm_item_new 1 (some ['a', 'b', 'c']) ∈
      bm_menu_get_filtered_items
        (bm_menu_filter
          { bm_menu_new with
              items := [bm_item_new 1 (some ['a', 'b', 'c'])],
              filterText := ['b'],
              filterMode := BmFilterMode.BM_FILTER_MODE_DMENU }) :=
  (C3_substring_semantics.1 _ _ rfl).mpr
    ⟨by simp [bm_menu_get_items], ['a'], ['c'], rfl⟩

/-- C4: after any call to `bm_menu_filter`, if the previously highlighted
item is still present (by identity) in the newly computed filtered list the
highlight points at that same item; otherwise the highlight resets to index
0, and when the filtered list is empty no item is highlighted; the
resulting highlight index is never out of range of a non-empty filtered
list. -/
theorem C4_post_filter_highlight (m : BmMenu) :
    (∀ it, bm_menu_get_highlighted_item m = some it →
      (∃ x ∈ (bm_menu_filter m).filtered, sameItem x it = true) →
      ∃ x, bm_menu_get_highlighted_item (bm_menu_filter m) = some x ∧
        sameItem x it = true) ∧
    ((∀ it, bm_menu_get_highlighted_item m = some it →
        ∀ x ∈ (bm_menu_filter m).filtered, sameItem x it = false) →
      (bm_menu_filter m).index = 0) ∧
    (bm_menu_get_filtered_items (bm_menu_filter m) = [] →
      bm_menu_get_highlighted_item (bm_menu_filter m) = none) ∧
    (bm_menu_get_filtered_items (bm_menu_filter m) ≠ [] →
      (bm_menu_filter m).index <
        (bm_menu_get_filtered_items (bm_menu_filter m)).length) := by
  refine ⟨?_, ?_, ?_, ?_⟩
  · intro it hit hex
    obtain ⟨i, hi⟩ := findIndex_isSome_of_exists hex
    obtain ⟨x, hx, hpx⟩ := findIndex_found hi
    refine ⟨x, ?_, hpx⟩
    have hidx : (bm_menu_filter m).index = i := by
      show followHighlight (bm_menu_get_highlighted_item m)
        ((bm_menu_filter m).filtered) = i
      rw [hit]
      exact followHighlight_some_eq hi
    show (bm_menu_filter m).filtered[(bm_menu_filter m).index]? = some x
    rw [hidx]
    exact hx
  · intro habs
    cases hit : bm_menu_get_highlighted_item m with
    | none =>
      show followHighlight (bm_menu_get_highlighted_item m)
        ((bm_menu_filter m).filtered) = 0
      rw [hit]
      rfl
    | some it =>
      have hnone := findIndex_eq_none_of_all (fun x hx => habs it hit x hx)
      show followHighlight (bm_menu_get_highlighted_item m)
        ((bm_menu_filter m).filtered) = 0
      rw [hit]
      exact followHighlight_some_zero hnone
  · intro hnil
    simp [bm_menu_get_highlighted_item,
      show (bm_menu_filter m).filtered = [] from hnil]
  · intro hne
    exact followHighlight_lt _ hne

/-- Witness for C4 at a concrete menu whose highlighted item survives the
recomputation. -/
theorem C4_post_filter_highlight_witness :
    ∃ x,
      bm_menu_get_highlighted_item
        (bm_menu_filter
          { bm_menu_new with
              items := [bm_item_new 5 (some ['q'])],
              filtered := [bm_item_new 5 (some ['q'])] }) = some x ∧
      sameItem x (bm_item_new 5 (some ['q'])) = true :=
  (C4_post_filter_highlight
      { bm_menu_new with
          items := [bm_item_new 5 (some ['q'])],
          filtered := [bm_item_new 5 (some ['q'])] }).1
    (bm_item_new 5 (some ['q'])) (by decide) (by decide)

/-- C5: `bm_menu_filter` is idempotent: with the item list, filter text and
filter mode unchanged between two consecutive calls, both calls yield the
same filtered sequence. -/
theorem C5_filter_idempotent (m : BmMenu) :
    bm_menu_get_filtered_items (bm_menu_filter (bm_menu_filter m)) =
      bm_menu_get_filtered_items (bm_menu_filter m) := rfl

/-- C6: with a currently highlighted item, BM_KEY_RETURN toggles that item's
membership in the selection set (removing it if present, appending it if
absent) and returns BM_RUN_RESULT_SELECTED. -/
theorem C6_return_toggles (m : BmMenu) (it : BmItem) (u : Char)
    (h : bm_menu_get_highlighted_item m = some it) :
    (bm_menu_run_with_key m BmKey.BM_KEY_RETURN u).2 =
      BmRunResult.BM_RUN_RESULT_SELECTED ∧
    (m.selection.any (fun x => sameItem x it) = true →
      (bm_menu_run_with_key m BmKey.BM_KEY_RETURN u).1.selection =
        m.selection.filter (fun x => !(sameItem x it))) ∧
    (m.selection.any (fun x => sameItem x it) = false →
      (bm_menu_run_with_key m BmKey.BM_KEY_RETURN u).1.selection =
        m.selection ++ [it]) := by
  unfold bm_menu_run_with_key
  rw [h]
  refine ⟨rfl, ?_, ?_⟩
  · intro hin
    simp [toggleSelection, toggleInList, hin]
  · intro hout
    simp [toggleSelection, toggleInList, hout]

/-- Witness for C6: on a concrete menu with one highlighted, unselected
item, Return returns SELECTED and adds the item to the selection set. -/
theorem C6_return_toggles_witness :
    (bm_menu_run_with_key
        { bm_menu_new with filtered := [bm_item_new 4 (some ['f', 'o', 'o'])] }
        BmKey.BM_KEY_RETURN 'x').2 = BmRunResult.BM_RUN_RESULT_SELECTED ∧
    (({ bm_menu_new with
          filtered := [bm_item_new 4 (some ['f', 'o', 'o'])] } : BmMenu).selection.any
        (fun x => sameItem x (bm_item_new 4 (some ['f', 'o', 'o']))) = true →
      (bm_menu_run_with_key
          { bm_menu_new with filtered := [bm_item_new 4 (some ['f', 'o', 'o'])] }
          BmKey.BM_KEY_RETURN 'x').1.selection =
        ({ bm_menu_new with
            filtered := [bm_item_new 4 (some ['f', 'o', 'o'])] } : BmMenu).selection.filter
          (fun x => !(sameItem x (bm_item_new 4 (some ['f', 'o', 'o']))))) ∧
    (({ bm_menu_new with
          filtered := [bm_item_new 4 (some ['f', 'o', 'o'])] } : BmMenu).selection.any
        (fun x => sameItem x (bm_item_new 4 (some ['f', 'o', 'o']))) = false →
      (bm_menu_run_with_key
          { bm_menu_new with filtered := [bm_item_new 4 (some ['f', 'o', 'o'])] }
          BmKey.BM_KEY_RETURN 'x').1.selection =
        ({ bm_menu_new with
            filtered := [bm_item_new 4 (some ['f', 'o', 'o'])] } : BmMenu).selection ++
          [bm_item_new 4 (some ['f', 'o', 'o'])]) :=
  C6_return_toggles _ _ 'x' (by decide)

/-- C7: BM_KEY_ESCAPE returns BM_RUN_RESULT_CANCEL on every menu state and
mutates nothing: the returned state is the input state, so the item list,
filtered list, selection set, highlight and filter text are all
unchanged. -/
theorem C7_escape_cancels (m : BmMenu) (u : Char) :
    bm_menu_run_with_key m BmKey.BM_KEY_ESCAPE u =
      (m, BmRunResult.BM_RUN_RESULT_CANCEL) := rfl

/-- C8: with a non-empty filtered list and the highlight at the last
filtered index, BM_KEY_DOWN wraps the highlight to index 0 when the wrap
flag is enabled and leaves the state unchanged when it is disabled, in both
cases returning RUNNING. -/
theorem C8_down_at_last (m : BmMenu) (u : Char)
    (hne : bm_menu_get_filtered_items m ≠ [])
    (hlast : m.index = (bm_menu_get_filtered_items m).length - 1) :
    (m.wrap = true → (bm_menu_run_with_key m BmKey.BM_KEY_DOWN u).1.index = 0) ∧
    (m.wrap = false → (bm_menu_run_with_key m BmKey.BM_KEY_DOWN u).1 = m) ∧
    (bm_menu_run_with_key m BmKey.BM_KEY_DOWN u).2 =
      BmRunResult.BM_RUN_RESULT_RUNNING := by
  have h0 : ¬ m.filtered.length = 0 := length_ne_zero_of_ne_nil hne
  have h1 : ¬ (m.index + 1 < m.filtered.length) := by
    have hl : m.index = m.filtered.length - 1 := hlast
    omega
  refine ⟨?_, ?_, rfl⟩
  · intro hw
    show (highlightDown m).index = 0
    unfold highlightDown
    simp [h0, h1, hw]
  · intro hw
    show highlightDown m = m
    unfold highlightDown
    simp [h0, h1, hw]

/-- Witness for C8: three filtered items, highlight at index 2, wrap
enabled; Down moves the highlight to index 0. -/
theorem C8_down_at_last_witness :
    (bm_menu_run_with_key
        { bm_menu_new with
            filtered := [bm_item_new 1 none, bm_item_new 2 none, bm_item_new 3 none],
            index := 2, wrap := true }
        BmKey.BM_KEY_DOWN 'x').1.index = 0 :=
  (C8_down_at_last
      { bm_menu_new with
          filtered := [bm_item_new 1 none, bm_item_new 2 none, bm_item_new 3 none],
          index := 2, wrap := true }
      'x' (by decide) (by decide)).1 rfl

/-- C9: an item on which text was never set — one created by `bm_item_new`
with no text — has the empty string as its text. -/
theorem C9_unset_text_empty (p : Nat) :
    bm_item_get_text (bm_item_new p none) = [] := rfl

/-- C10: BM_FILTER_MODE_LAST behaves exactly like BM_FILTER_MODE_DMENU:
for every item list and filter text, `bm_menu_filter` produces the same
filtered sequence under either mode. -/
theorem C10_mode_last_equals_dmenu (m : BmMenu) :
    bm_menu_get_filtered_items
        (bm_menu_filter
          (bm_menu_set_filter_mode m BmFilterMode.BM_FILTER_MODE_LAST)) =
      bm_menu_get_filtered_items
        (bm_menu_filter
          (bm_menu_set_filter_mode m BmFilterMode.BM_FILTER_MODE_DMENU)) := rfl

end Bemenu
